import Mathlib

/-!
Verification of the packing utilities in
`src/llamafactory/data/processors/processor_utils.py`.

The file embeds `search_for_fit`, `greedy_knapsack` and
`get_paligemma_token_type_ids` as executable Lean functions and proves the
specified properties about them.  Python integers are modelled by `Int`.
The outer `while numbers:` loop of `greedy_knapsack` can genuinely fail to
terminate (when no remaining item fits into a fresh knapsack the loop makes
no progress), so it is modelled with an explicit fuel parameter; a result of
`none` means the fuel bound was exhausted, and divergence is expressed by
`none` for every fuel value.
-/

namespace ProcessorUtils

/-- Python's `bisect.bisect(numbers, x)` (an alias of `bisect_right`) on an
ascending-sorted list returns the insertion point to the right of any entries
equal to `x`, i.e. the number of leading elements that are `≤ x`.  The call in
`search_for_fit` is always made on an ascending-sorted list, so we model the
documented behaviour on sorted input directly as the length of the longest
leading run of elements `≤ x`. -/
def bisect (numbers : List Int) (x : Int) : Nat :=
  (numbers.takeWhile (fun y => decide (y ≤ x))).length

/-- Python `search_for_fit(numbers, capacity)`: index of the largest number that fits
into the knapsack with the given capacity, or `-1` if none fits.  Source:
`index = bisect.bisect(numbers, capacity); return -1 if index == 0 else (index - 1)`. -/
def search_for_fit (numbers : List Int) (capacity : Int) : Int :=
  let index := bisect numbers capacity
  if index = 0 then -1 else (index : Int) - 1

/-- The inner `while True:` loop of `greedy_knapsack`: repeatedly find the
largest fitting number, remove it from the pool (`numbers.pop(index)`) and
append it to the current knapsack, updating the remaining capacity, until no
number fits.  Returns the filled knapsack together with the remaining pool.
Each successful search removes one element, so the loop runs at most
`numbers.length` times; the structural fuel argument is initialised to the
pool length by every caller and never runs out. -/
def fillKnapsack : Nat → List Int → Int → List Int × List Int
  | 0, numbers, _ => ([], numbers)
  | fuel + 1, numbers, remaining =>
    let index := search_for_fit numbers remaining
    if index = -1 then
      ([], numbers)
    else
      let i := index.toNat
      let v := numbers.getD i 0
      let rec_result := fillKnapsack fuel (numbers.eraseIdx i) (remaining - v)
      (v :: rec_result.1, rec_result.2)

/-- The outer `while numbers:` loop of `greedy_knapsack`.  Each iteration
fills one knapsack from the remaining pool and appends it to the output.  The
source loop does not necessarily terminate (an iteration that packs nothing
leaves the pool unchanged), hence the fuel parameter: `none` means the fuel
was exhausted with items still unpacked. -/
def knapsackLoop (capacity : Int) : Nat → List Int → Option (List (List Int))
  | 0, numbers => if numbers = [] then some [] else none
  | fuel + 1, numbers =>
    if numbers = [] then some []
    else
      let bin := (fillKnapsack numbers.length numbers capacity).1
      let rest := (fillKnapsack numbers.length numbers capacity).2
      (knapsackLoop capacity fuel rest).map (fun bins => bin :: bins)

/-- Python `greedy_knapsack(numbers, capacity)`: sort the numbers ascending, then
greedily fill knapsacks.  A terminating run of the source packs at least one
item per outer iteration, so `numbers.length` is enough fuel for every
terminating call; `none` therefore corresponds exactly to runs of the source
that loop forever. -/
def greedy_knapsack (numbers : List Int) (capacity : Int) : Option (List (List Int)) :=
  knapsackLoop capacity numbers.length (List.insertionSort (fun a b => a ≤ b) numbers)

/-- Python `get_paligemma_token_type_ids(input_len, processor)`:
`[0] * image_seq_length + [1] * (input_len - image_seq_length)`.  The
`image_seq_length` attribute read from the processor is passed directly.
Python's `[x] * n` is empty for `n ≤ 0`, hence `Int.toNat`. -/
def get_paligemma_token_type_ids (input_len image_seq_length : Int) : List Int :=
  List.replicate image_seq_length.toNat 0 ++
    List.replicate (input_len - image_seq_length).toNat 1

end ProcessorUtils

namespace ProcessorUtils

/-! ### Facts about `bisect` and `search_for_fit` -/

theorem takeWhile_length_le (p : Int → Bool) (l : List Int) :
    (l.takeWhile p).length ≤ l.length := by
  induction l with
  | nil => simp
  | cons a t ih =>
    by_cases h : p a
    · simpa [List.takeWhile_cons_of_pos h] using ih
    · simp [List.takeWhile_cons_of_neg h]

theorem getD_of_lt_takeWhile_length (p : Int → Bool) (l : List Int) (i : Nat)
    (h : i < (l.takeWhile p).length) : p (l.getD i 0) = true := by
  induction l generalizing i with
  | nil => simp at h
  | cons a t ih =>
    by_cases hp : p a
    · rw [List.takeWhile_cons_of_pos hp] at h
      cases i with
      | zero => simpa using hp
      | succ j => exact ih j (by simpa using h)
    · rw [List.takeWhile_cons_of_neg hp] at h
      simp at h

theorem getD_mem_of_lt (l : List Int) (i : Nat) (d : Int) (h : i < l.length) :
    l.getD i d ∈ l := by
  rw [List.getD_eq_getElem l d h]
  exact l.getElem_mem h

theorem takeWhile_length_pos_of_getD (c : Int) (l : List Int)
    (hs : l.Sorted (fun a b => a ≤ b)) (j : Nat) (hj : j < l.length)
    (hle : l.getD j 0 ≤ c) : j < (l.takeWhile (fun y => decide (y ≤ c))).length := by
  induction l generalizing j with
  | nil => simp at hj
  | cons a t ih =>
    by_cases hp : a ≤ c
    · rw [List.takeWhile_cons_of_pos (by simpa using hp)]
      cases j with
      | zero => simp
      | succ k =>
        have := ih (List.Sorted.of_cons hs) k (by simpa using hj) (by simpa using hle)
        simpa using this
    · exfalso
      cases j with
      | zero => exact hp (by simpa using hle)
      | succ k =>
        have hmem : t.getD k 0 ∈ t := getD_mem_of_lt t k 0 (by simpa using hj)
        have : a ≤ t.getD k 0 := (List.sorted_cons.mp hs).1 _ hmem
        exact hp (le_trans this (by simpa using hle))

/-- When `search_for_fit` does not return `-1`, the returned index is a valid
index whose element fits the capacity. -/
theorem search_for_fit_hit (numbers : List Int) (capacity : Int)
    (h : search_for_fit numbers capacity ≠ -1) :
    (search_for_fit numbers capacity).toNat < numbers.length ∧
      numbers.getD (search_for_fit numbers capacity).toNat 0 ≤ capacity := by
  have h0 : bisect numbers capacity ≠ 0 := by
    intro h0
    exact h (by unfold search_for_fit; simp [h0])
  have hpos : 0 < bisect numbers capacity := Nat.pos_of_ne_zero h0
  have hle : bisect numbers capacity ≤ numbers.length :=
    takeWhile_length_le (fun y => decide (y ≤ capacity)) numbers
  have hsf : search_for_fit numbers capacity = (bisect numbers capacity : Int) - 1 := by
    unfold search_for_fit
    simp [h0]
  have htn : (search_for_fit numbers capacity).toNat = bisect numbers capacity - 1 := by
    rw [hsf]; omega
  rw [htn]
  refine ⟨by omega, ?_⟩
  have := getD_of_lt_takeWhile_length (fun y => decide (y ≤ capacity)) numbers
    (bisect numbers capacity - 1) (by unfold bisect at hpos ⊢; omega)
  simpa using this

theorem search_for_fit_ne_of_head (a : Int) (t : List Int) (capacity : Int)
    (h : a ≤ capacity) : search_for_fit (a :: t) capacity ≠ -1 := by
  unfold search_for_fit bisect
  rw [List.takeWhile_cons_of_pos (by simpa using h)]
  simp

theorem search_for_fit_eq_neg_one_of_all (numbers : List Int) (capacity : Int)
    (h : ∀ x ∈ numbers, capacity < x) : search_for_fit numbers capacity = -1 := by
  unfold search_for_fit bisect
  cases numbers with
  | nil => simp
  | cons a t =>
    rw [List.takeWhile_cons_of_neg (by simpa using not_le.mpr (h a (by simp)))]
    simp

/-! ### Facts about `fillKnapsack` -/

theorem getD_cons_eraseIdx_perm (l : List Int) (i : Nat) (h : i < l.length) :
    (l.getD i 0 :: l.eraseIdx i).Perm l := by
  have hsplit : l = l.take i ++ (l.getD i 0 :: l.drop (i + 1)) := by
    rw [List.getD_eq_getElem l 0 h, List.getElem_cons_drop l i h]
    exact (List.take_append_drop i l).symm
  conv_rhs => rw [hsplit]
  rw [List.eraseIdx_eq_take_drop_succ]
  exact List.perm_middle.symm

theorem fillKnapsack_perm (fuel : Nat) (numbers : List Int) (remaining : Int) :
    ((fillKnapsack fuel numbers remaining).1 ++
      (fillKnapsack fuel numbers remaining).2).Perm numbers := by
  induction fuel generalizing numbers remaining with
  | zero => simp [fillKnapsack]
  | succ fuel ih =>
    rw [fillKnapsack]
    by_cases h : search_for_fit numbers remaining = -1
    · simp [h]
    · simp only [h, if_false]
      have hi := search_for_fit_hit numbers remaining h
      set i := (search_for_fit numbers remaining).toNat with hidef
      set v := numbers.getD i 0 with hvdef
      have hperm := ih (numbers.eraseIdx i) (remaining - v)
      exact (hperm.cons v).trans (getD_cons_eraseIdx_perm numbers i hi.1)

theorem fillKnapsack_rest_sublist (fuel : Nat) (numbers : List Int) (remaining : Int) :
    (fillKnapsack fuel numbers remaining).2.Sublist numbers := by
  induction fuel generalizing numbers remaining with
  | zero => simp [fillKnapsack]
  | succ fuel ih =>
    rw [fillKnapsack]
    by_cases h : search_for_fit numbers remaining = -1
    · simp [h]
    · simp only [h, if_false]
      have hi := search_for_fit_hit numbers remaining h
      exact (ih _ _).trans (List.eraseIdx_sublist numbers _)

theorem fillKnapsack_stall (fuel : Nat) (numbers : List Int) (remaining : Int)
    (h : (fillKnapsack fuel numbers remaining).1 = []) :
    (fillKnapsack fuel numbers remaining).2 = numbers := by
  cases fuel with
  | zero => simp [fillKnapsack]
  | succ fuel =>
    rw [fillKnapsack] at h ⊢
    by_cases hs : search_for_fit numbers remaining = -1
    · simp [hs]
    · simp [hs] at h

theorem fillKnapsack_sum_le (fuel : Nat) (numbers : List Int) (remaining : Int)
    (h : (fillKnapsack fuel numbers remaining).1 ≠ []) :
    (fillKnapsack fuel numbers remaining).1.sum ≤ remaining := by
  induction fuel generalizing numbers remaining with
  | zero => simp [fillKnapsack] at h
  | succ fuel ih =>
    rw [fillKnapsack] at h ⊢
    by_cases hs : search_for_fit numbers remaining = -1
    · simp [hs] at h
    · simp only [hs, if_false] at h ⊢
      have hi := search_for_fit_hit numbers remaining hs
      set i := (search_for_fit numbers remaining).toNat with hidef
      set v := numbers.getD i 0 with hvdef
      simp only [List.sum_cons]
      by_cases hrec : (fillKnapsack fuel (numbers.eraseIdx i) (remaining - v)).1 = []
      · rw [hrec]
        simpa using hi.2
      · have := ih (numbers.eraseIdx i) (remaining - v) hrec
        have hv : v ≤ remaining := hi.2
        omega

theorem fillKnapsack_rest_length_lt (fuel : Nat) (numbers : List Int) (remaining : Int)
    (h : search_for_fit numbers remaining ≠ -1) :
    (fillKnapsack (fuel + 1) numbers remaining).2.length < numbers.length := by
  rw [fillKnapsack]
  simp only [h, if_false]
  have hi := search_for_fit_hit numbers remaining h
  have h1 : (fillKnapsack fuel (numbers.eraseIdx (search_for_fit numbers remaining).toNat)
      (remaining - numbers.getD (search_for_fit numbers remaining).toNat 0)).2.length ≤
      (numbers.eraseIdx (search_for_fit numbers remaining).toNat).length :=
    (fillKnapsack_rest_sublist _ _ _).length_le
  have h2 : (numbers.eraseIdx (search_for_fit numbers remaining).toNat).length =
      numbers.length - 1 := by
    rw [List.length_eraseIdx]
    simp [hi.1]
  omega

/-! ### Facts about `knapsackLoop` and `greedy_knapsack` -/

/-- If no remaining number fits into a fresh knapsack, the outer loop makes no
progress: it keeps opening empty knapsacks forever.  In the fuel model this
means `none` for every fuel value. -/
theorem knapsackLoop_stall (capacity : Int) (numbers : List Int)
    (hne : numbers ≠ []) (h : search_for_fit numbers capacity = -1) :
    ∀ fuel, knapsackLoop capacity fuel numbers = none := by
  intro fuel
  induction fuel with
  | zero => simp [knapsackLoop, hne]
  | succ fuel ih =>
    rw [knapsackLoop]
    simp only [hne, if_false]
    have hfill : fillKnapsack numbers.length numbers capacity = ([], numbers) := by
      cases hl : numbers.length with
      | zero => simp [fillKnapsack]
      | succ k => rw [fillKnapsack]; simp [h]
    rw [hfill]
    simp [ih]

theorem knapsackLoop_flatten_perm (capacity : Int) (fuel : Nat) (numbers : List Int)
    (bins : List (List Int)) (h : knapsackLoop capacity fuel numbers = some bins) :
    bins.flatten.Perm numbers := by
  induction fuel generalizing numbers bins with
  | zero =>
    rw [knapsackLoop] at h
    by_cases hne : numbers = []
    · simp [hne] at h
      subst h
      simp [hne]
    · simp [hne] at h
  | succ fuel ih =>
    rw [knapsackLoop] at h
    by_cases hne : numbers = []
    · simp [hne] at h
      subst h
      simp [hne]
    · simp only [hne, if_false, Option.map_eq_some'] at h
      obtain ⟨bins', hrec, hbins⟩ := h
      have hperm := ih _ _ hrec
      have hfill := fillKnapsack_perm numbers.length numbers capacity
      subst hbins
      simp only [List.flatten_cons]
      exact ((hperm.append_left _).trans hfill)

theorem fillKnapsack_bin_nil_search (numbers : List Int) (capacity : Int)
    (hne : numbers ≠ []) (hbin : (fillKnapsack numbers.length numbers capacity).1 = []) :
    search_for_fit numbers capacity = -1 := by
  by_contra hs
  obtain ⟨a, t, rfl⟩ := List.exists_cons_of_ne_nil hne
  simp only [List.length_cons] at hbin
  rw [fillKnapsack] at hbin
  simp [hs] at hbin

theorem knapsackLoop_bins_nonempty (capacity : Int) (fuel : Nat) (numbers : List Int)
    (bins : List (List Int)) (h : knapsackLoop capacity fuel numbers = some bins) :
    ∀ b ∈ bins, b ≠ [] := by
  induction fuel generalizing numbers bins with
  | zero =>
    rw [knapsackLoop] at h
    by_cases hne : numbers = []
    · simp [hne] at h; subst h; simp
    · simp [hne] at h
  | succ fuel ih =>
    rw [knapsackLoop] at h
    by_cases hne : numbers = []
    · simp [hne] at h; subst h; simp
    · simp only [hne, if_false, Option.map_eq_some'] at h
      obtain ⟨bins', hrec, hbins⟩ := h
      by_cases hbin : (fillKnapsack numbers.length numbers capacity).1 = []
      · exfalso
        have hrest := fillKnapsack_stall numbers.length numbers capacity hbin
        have hs : search_for_fit numbers capacity = -1 :=
          fillKnapsack_bin_nil_search numbers capacity hne hbin
        rw [hrest] at hrec
        rw [knapsackLoop_stall capacity numbers hne hs fuel] at hrec
        exact Option.noConfusion hrec
      · subst hbins
        intro b hb
        rcases List.mem_cons.mp hb with hb | hb
        · subst hb; exact hbin
        · exact ih _ _ hrec b hb

theorem knapsackLoop_sum_le (capacity : Int) (fuel : Nat) (numbers : List Int)
    (bins : List (List Int)) (h : knapsackLoop capacity fuel numbers = some bins) :
    ∀ b ∈ bins, b.sum ≤ capacity := by
  induction fuel generalizing numbers bins with
  | zero =>
    rw [knapsackLoop] at h
    by_cases hne : numbers = []
    · simp [hne] at h; subst h; simp
    · simp [hne] at h
  | succ fuel ih =>
    rw [knapsackLoop] at h
    by_cases hne : numbers = []
    · simp [hne] at h; subst h; simp
    · simp only [hne, if_false, Option.map_eq_some'] at h
      obtain ⟨bins', hrec, hbins⟩ := h
      have hbin : (fillKnapsack numbers.length numbers capacity).1 ≠ [] := by
        intro hbin
        have hrest := fillKnapsack_stall numbers.length numbers capacity hbin
        have hs : search_for_fit numbers capacity = -1 :=
          fillKnapsack_bin_nil_search numbers capacity hne hbin
        rw [hrest] at hrec
        rw [knapsackLoop_stall capacity numbers hne hs fuel] at hrec
        exact Option.noConfusion hrec
      subst hbins
      intro b hb
      rcases List.mem_cons.mp hb with hb | hb
      · subst hb
        exact fillKnapsack_sum_le numbers.length numbers capacity hbin
      · exact ih _ _ hrec b hb

theorem knapsackLoop_isSome (capacity : Int) (fuel : Nat) (numbers : List Int)
    (hfuel : numbers.length ≤ fuel) (hfit : ∀ x ∈ numbers, x ≤ capacity) :
    ∃ bins, knapsackLoop capacity fuel numbers = some bins := by
  induction fuel generalizing numbers with
  | zero =>
    have : numbers = [] := List.length_eq_zero.mp (Nat.le_zero.mp hfuel)
    exact ⟨[], by simp [knapsackLoop, this]⟩
  | succ fuel ih =>
    by_cases hne : numbers = []
    · exact ⟨[], by simp [knapsackLoop, hne]⟩
    · obtain ⟨a, t, hat⟩ := List.exists_cons_of_ne_nil hne
      have hsearch : search_for_fit numbers capacity ≠ -1 := by
        rw [hat]
        exact search_for_fit_ne_of_head a t capacity (hfit a (by rw [hat]; simp))
      have hlen0 : numbers.length = (numbers.length - 1) + 1 := by
        rw [hat]; simp
      have hlt : (fillKnapsack numbers.length numbers capacity).2.length <
          numbers.length := by
        have := fillKnapsack_rest_length_lt (numbers.length - 1) numbers capacity hsearch
        rw [← hlen0] at this
        exact this
      have hsub : (fillKnapsack numbers.length numbers capacity).2.Sublist numbers :=
        fillKnapsack_rest_sublist numbers.length numbers capacity
      have hfit' : ∀ x ∈ (fillKnapsack numbers.length numbers capacity).2, x ≤ capacity :=
        fun x hx => hfit x (hsub.subset hx)
      obtain ⟨bins, hbins⟩ := ih (fillKnapsack numbers.length numbers capacity).2
        (by omega) hfit'
      refine ⟨(fillKnapsack numbers.length numbers capacity).1 :: bins, ?_⟩
      rw [knapsackLoop]
      simp [hne, hbins]

theorem knapsackLoop_nil (capacity : Int) (fuel : Nat) :
    knapsackLoop capacity fuel [] = some [] := by
  cases fuel <;> simp [knapsackLoop]

theorem knapsackLoop_bins_ne_nil (capacity : Int) (fuel : Nat) (numbers : List Int)
    (bins : List (List Int)) (h : knapsackLoop capacity fuel numbers = some bins)
    (hne : numbers ≠ []) : bins ≠ [] := by
  cases fuel with
  | zero => rw [knapsackLoop] at h; simp [hne] at h
  | succ fuel =>
    rw [knapsackLoop] at h
    simp only [hne, if_false, Option.map_eq_some'] at h
    obtain ⟨bins', _, hbins⟩ := h
    subst hbins
    simp

theorem insertionSort_ne_nil (numbers : List Int) (hne : numbers ≠ []) :
    List.insertionSort (fun a b => a ≤ b) numbers ≠ [] := by
  intro h
  apply hne
  have hlen := (List.perm_insertionSort (fun a b => a ≤ b) numbers).length_eq
  rw [h] at hlen
  exact List.length_eq_zero.mp hlen.symm

/-- When every number is non-negative and they all fit together
(`sum ≤ remaining`), the inner loop consumes the whole pool. -/
theorem fillKnapsack_all (fuel : Nat) (numbers : List Int) (remaining : Int)
    (hfuel : numbers.length ≤ fuel) (hnn : ∀ x ∈ numbers, 0 ≤ x)
    (hsum : numbers.sum ≤ remaining) :
    (fillKnapsack fuel numbers remaining).2 = [] := by
  induction fuel generalizing numbers remaining with
  | zero =>
    have : numbers = [] := List.length_eq_zero.mp (Nat.le_zero.mp hfuel)
    simp [fillKnapsack, this]
  | succ fuel ih =>
    by_cases hne : numbers = []
    · subst hne
      rw [fillKnapsack]
      have hempty : search_for_fit [] remaining = -1 := by
        unfold search_for_fit bisect
        simp
      simp [hempty]
    · obtain ⟨a, t, hat⟩ := List.exists_cons_of_ne_nil hne
      have hta : 0 ≤ t.sum :=
        List.sum_nonneg (fun x hx => hnn x (by rw [hat]; exact List.mem_cons_of_mem a hx))
      have hsa : numbers.sum = a + t.sum := by rw [hat]; simp
      have ha : a ≤ remaining := by omega
      have hsearch : search_for_fit numbers remaining ≠ -1 := by
        rw [hat]
        exact search_for_fit_ne_of_head a t remaining ha
      rw [fillKnapsack]
      simp only [hsearch, if_false]
      have hi := search_for_fit_hit numbers remaining hsearch
      set i := (search_for_fit numbers remaining).toNat with hidef
      set v := numbers.getD i 0 with hvdef
      have hperm := getD_cons_eraseIdx_perm numbers i hi.1
      have hlen : (numbers.eraseIdx i).length = numbers.length - 1 := by
        rw [List.length_eraseIdx]
        simp [hi.1]
      have hsum2 : v + (numbers.eraseIdx i).sum = numbers.sum := by
        have := hperm.sum_eq
        rw [List.sum_cons] at this
        exact this
      apply ih
      · have : numbers.length ≠ 0 := by rw [hat]; simp
        omega
      · exact fun x hx => hnn x ((List.eraseIdx_sublist numbers i).subset hx)
      · omega

theorem sorted_getD_mono (l : List Int) (hs : l.Sorted (fun a b => a ≤ b))
    (i j : Nat) (hij : i ≤ j) (hj : j < l.length) : l.getD i 0 ≤ l.getD j 0 := by
  rcases Nat.eq_or_lt_of_le hij with heq | hlt
  · subst heq; exact le_refl _
  · have hi : i < l.length := lt_trans hlt hj
    have := List.Sorted.rel_get_of_lt hs
      (a := (⟨i, hi⟩ : Fin l.length)) (b := (⟨j, hj⟩ : Fin l.length)) hlt
    rw [List.getD_eq_getElem l 0 hi, List.getD_eq_getElem l 0 hj]
    simpa [List.get_eq_getElem] using this

/-! ### Claim theorems -/

/-- C1.  Conservation: whenever `greedy_knapsack` returns a list of bins, the
multiset union of the bins equals the multiset of input items — no item is
lost and none is duplicated. -/
theorem greedy_knapsack_conservation (numbers : List Int) (capacity : Int)
    (bins : List (List Int)) (h : greedy_knapsack numbers capacity = some bins) :
    (bins.flatten : Multiset Int) = (numbers : Multiset Int) := by
  rw [Multiset.coe_eq_coe]
  unfold greedy_knapsack at h
  exact (knapsackLoop_flatten_perm _ _ _ _ h).trans
    (List.perm_insertionSort (fun a b => a ≤ b) numbers)

/-- Witness for C1 at `numbers = [1, 2, 3, 4, 5]`, `capacity = 5`. -/
theorem greedy_knapsack_conservation_witness :
    (([[5], [4, 1], [3, 2]] : List (List Int)).flatten : Multiset Int) =
      (([1, 2, 3, 4, 5] : List Int) : Multiset Int) :=
  greedy_knapsack_conservation [1, 2, 3, 4, 5] 5 [[5], [4, 1], [3, 2]] (by decide)

/-- C2.  Capacity bound: every bin returned by `greedy_knapsack` — with the
claim's allowance for a bin holding a single oversized item — has item sizes
summing to at most the capacity.  (In fact every returned bin satisfies the
bound: an oversized item makes the source loop forever instead of returning.) -/
theorem greedy_knapsack_capacity_bound (numbers : List Int) (capacity : Int)
    (bins : List (List Int)) (h : greedy_knapsack numbers capacity = some bins) :
    ∀ b ∈ bins, (∃ x, b = [x] ∧ capacity < x) ∨ b.sum ≤ capacity := by
  intro b hb
  unfold greedy_knapsack at h
  exact Or.inr (knapsackLoop_sum_le _ _ _ _ h b hb)

/-- Witness for C2 at `numbers = [2, 3, 4]`, `capacity = 5`. -/
theorem greedy_knapsack_capacity_bound_witness :
    (∃ x, ([4] : List Int) = [x] ∧ (5 : Int) < x) ∨ ([4] : List Int).sum ≤ 5 :=
  greedy_knapsack_capacity_bound [2, 3, 4] 5 [[4], [3, 2]] (by decide) [4] (by decide)

/-- C10.  No empty bins: whenever `greedy_knapsack` terminates and returns a
list of bins, every bin contains at least one item. -/
theorem greedy_knapsack_no_empty_bins (numbers : List Int) (capacity : Int)
    (bins : List (List Int)) (h : greedy_knapsack numbers capacity = some bins) :
    ∀ b ∈ bins, b ≠ [] := by
  unfold greedy_knapsack at h
  exact knapsackLoop_bins_nonempty _ _ _ _ h

/-- Witness for C10 at `numbers = [1, 1]`, `capacity = 2`. -/
theorem greedy_knapsack_no_empty_bins_witness : ([1, 1] : List Int) ≠ [] :=
  greedy_knapsack_no_empty_bins [1, 1] 2 [[1, 1]] (by decide) [1, 1] (by decide)

/-- C3 counterexample.  The claim says `packItems([10], capacity=5)` returns
`[[10]]`; in fact the source loops forever on this input (the fuel-bounded
model returns `none`, not `some [[10]]`). -/
theorem greedy_knapsack_oversized_cex :
    greedy_knapsack [10] 5 = none ∧ greedy_knapsack [10] 5 ≠ some [[10]] := by
  decide

/-- C3 as amended.  A single item whose size exceeds the capacity is never
placed in a bin: `greedy_knapsack` makes no progress and loops forever, i.e.
the loop yields `none` for every fuel bound. -/
theorem greedy_knapsack_oversized_diverges (n capacity : Int) (h : capacity < n) :
    greedy_knapsack [n] capacity = none ∧
      ∀ fuel, knapsackLoop capacity fuel [n] = none := by
  have hstall : search_for_fit [n] capacity = -1 :=
    search_for_fit_eq_neg_one_of_all [n] capacity (by intro x hx; simp at hx; omega)
  have hloop : ∀ fuel, knapsackLoop capacity fuel [n] = none :=
    knapsackLoop_stall capacity [n] (by simp) hstall
  refine ⟨?_, hloop⟩
  unfold greedy_knapsack
  have hsort : List.insertionSort (fun a b => a ≤ b) [n] = [n] := by
    simp [List.insertionSort]
  rw [hsort]
  exact hloop _

/-- Witness for the amended C3 at `n = 10`, `capacity = 5`. -/
theorem greedy_knapsack_oversized_diverges_witness :
    greedy_knapsack [10] 5 = none ∧ knapsackLoop 5 3 [10] = none :=
  ⟨(greedy_knapsack_oversized_diverges 10 5 (by decide)).1,
    (greedy_knapsack_oversized_diverges 10 5 (by decide)).2 3⟩

/-- C4 counterexample.  The claim says every call with non-negative sizes and
positive capacity terminates; `[7]` with capacity `3` is such an input, yet
the source loops forever (the fuel-bounded model returns `none`). -/
theorem greedy_knapsack_termination_cex : greedy_knapsack [7] 3 = none := by
  decide

/-- C4 as amended.  `greedy_knapsack` terminates for every positive capacity
and every list of non-negative item sizes that are each at most the capacity;
an item exceeding the capacity (see the counterexample) makes it loop
forever. -/
theorem greedy_knapsack_terminates (numbers : List Int) (capacity : Int)
    (_hpos : 0 < capacity) (_hnn : ∀ x ∈ numbers, 0 ≤ x)
    (hle : ∀ x ∈ numbers, x ≤ capacity) :
    ∃ bins, greedy_knapsack numbers capacity = some bins := by
  unfold greedy_knapsack
  apply knapsackLoop_isSome
  · exact (List.perm_insertionSort (fun a b => a ≤ b) numbers).length_eq.le
  · intro x hx
    exact hle x ((List.perm_insertionSort (fun a b => a ≤ b) numbers).subset hx)

/-- Witness for the amended C4 at `numbers = [1, 2]`, `capacity = 3`. -/
theorem greedy_knapsack_terminates_witness :
    ∃ bins, greedy_knapsack [1, 2] 3 = some bins :=
  greedy_knapsack_terminates [1, 2] 3 (by decide) (by decide) (by decide)

/-- C7 counterexample.  The claim says `packItems([1,2,3], capacity=0)` fails
fast with an `InvalidArgument` error; the source has no such guard and loops
forever instead (the fuel-bounded model returns `none`, it produces no
result of any kind). -/
theorem greedy_knapsack_invalid_capacity_cex : greedy_knapsack [1, 2, 3] 0 = none := by
  decide

/-- C7 as amended.  The source does not validate the capacity: a call with
`capacity ≤ 0` on a non-empty list of positive sizes does not fail fast — it
makes no progress and loops forever (`none` for every fuel bound). -/
theorem greedy_knapsack_invalid_capacity_loops (numbers : List Int) (capacity : Int)
    (hcap : capacity ≤ 0) (hne : numbers ≠ []) (hpos : ∀ x ∈ numbers, 0 < x) :
    greedy_knapsack numbers capacity = none ∧
      ∀ fuel, knapsackLoop capacity fuel
        (List.insertionSort (fun a b => a ≤ b) numbers) = none := by
  have hne' := insertionSort_ne_nil numbers hne
  have hstall : search_for_fit (List.insertionSort (fun a b => a ≤ b) numbers)
      capacity = -1 := by
    apply search_for_fit_eq_neg_one_of_all
    intro x hx
    have : 0 < x := hpos x ((List.perm_insertionSort (fun a b => a ≤ b) numbers).subset hx)
    omega
  have hloop := knapsackLoop_stall capacity _ hne' hstall
  exact ⟨hloop _, hloop⟩

/-- Witness for the amended C7 at `numbers = [1, 2, 3]`, `capacity = 0`. -/
theorem greedy_knapsack_invalid_capacity_loops_witness :
    greedy_knapsack [1, 2, 3] 0 = none ∧
      knapsackLoop 0 5 (List.insertionSort (fun a b => a ≤ b) [1, 2, 3]) = none :=
  ⟨(greedy_knapsack_invalid_capacity_loops [1, 2, 3] 0 (by decide) (by decide)
      (by decide)).1,
    (greedy_knapsack_invalid_capacity_loops [1, 2, 3] 0 (by decide) (by decide)
      (by decide)).2 5⟩

/-- C5.  On an ascending-sorted list of non-negative integers,
`search_for_fit` returns `-1` exactly when no element fits (in particular on
the empty list, or when even the smallest element exceeds the capacity);
otherwise it returns the rightmost index whose element is `≤ capacity`, and
that element is the largest fitting value. -/
theorem search_for_fit_correct (numbers : List Int) (capacity : Int)
    (hs : numbers.Sorted (fun a b => a ≤ b)) (_hnn : ∀ x ∈ numbers, 0 ≤ x) :
    (search_for_fit numbers capacity = -1 ↔ ∀ x ∈ numbers, capacity < x) ∧
      (search_for_fit numbers capacity ≠ -1 →
        (search_for_fit numbers capacity).toNat < numbers.length ∧
          numbers.getD (search_for_fit numbers capacity).toNat 0 ≤ capacity ∧
          (∀ j, j < numbers.length → numbers.getD j 0 ≤ capacity →
            j ≤ (search_for_fit numbers capacity).toNat) ∧
          ∀ x ∈ numbers, x ≤ capacity →
            x ≤ numbers.getD (search_for_fit numbers capacity).toNat 0) := by
  have hb : bisect numbers capacity =
      (numbers.takeWhile (fun y => decide (y ≤ capacity))).length := rfl
  constructor
  · constructor
    · intro h x hx
      by_contra hcap
      push_neg at hcap
      obtain ⟨j, hj, hxj⟩ := List.mem_iff_getElem.mp hx
      have hgd : numbers.getD j 0 ≤ capacity := by
        rw [List.getD_eq_getElem numbers 0 hj, hxj]; exact hcap
      have hpos := takeWhile_length_pos_of_getD capacity numbers hs j hj hgd
      have h0 : bisect numbers capacity ≠ 0 := by omega
      have hsf : search_for_fit numbers capacity = (bisect numbers capacity : Int) - 1 := by
        unfold search_for_fit; simp [h0]
      rw [hsf] at h
      omega
    · exact search_for_fit_eq_neg_one_of_all numbers capacity
  · intro h
    have hhit := search_for_fit_hit numbers capacity h
    have h0 : bisect numbers capacity ≠ 0 := by
      intro h0
      exact h (by unfold search_for_fit; simp [h0])
    have hsf : search_for_fit numbers capacity = (bisect numbers capacity : Int) - 1 := by
      unfold search_for_fit; simp [h0]
    have htn : (search_for_fit numbers capacity).toNat = bisect numbers capacity - 1 := by
      rw [hsf]; omega
    have hright : ∀ j, j < numbers.length → numbers.getD j 0 ≤ capacity →
        j ≤ (search_for_fit numbers capacity).toNat := by
      intro j hj hje
      have hpos := takeWhile_length_pos_of_getD capacity numbers hs j hj hje
      omega
    refine ⟨hhit.1, hhit.2, hright, ?_⟩
    intro x hx hxc
    obtain ⟨j, hj, hxj⟩ := List.mem_iff_getElem.mp hx
    have hgd : numbers.getD j 0 ≤ capacity := by
      rw [List.getD_eq_getElem numbers 0 hj, hxj]; exact hxc
    have hji := hright j hj hgd
    have := sorted_getD_mono numbers hs j (search_for_fit numbers capacity).toNat
      hji hhit.1
    rw [List.getD_eq_getElem numbers 0 hj, hxj] at this
    exact this

/-- Witness for C5 at `numbers = [1, 2, 2, 4]`, `capacity = 3`: the hit is at
index 2 (the rightmost of the two equal 2s). -/
theorem search_for_fit_correct_witness :
    (search_for_fit [1, 2, 2, 4] 3).toNat < ([1, 2, 2, 4] : List Int).length ∧
      ([1, 2, 2, 4] : List Int).getD (search_for_fit [1, 2, 2, 4] 3).toNat 0 ≤ 3 ∧
      2 ≤ (search_for_fit [1, 2, 2, 4] 3).toNat :=
  ⟨((search_for_fit_correct [1, 2, 2, 4] 3 (by decide) (by decide)).2 (by decide)).1,
    ((search_for_fit_correct [1, 2, 2, 4] 3 (by decide) (by decide)).2 (by decide)).2.1,
    ((search_for_fit_correct [1, 2, 2, 4] 3 (by decide) (by decide)).2
      (by decide)).2.2.1 2 (by decide) (by decide)⟩

/-- C6 counterexample.  Packing the same multiset with the larger capacity 32
produces five bins where capacity 31 produces four: the greedy heuristic is
not monotone in the capacity. -/
theorem greedy_knapsack_capacity_monotonicity_cex :
    (31 : Int) ≤ 32 ∧
      (greedy_knapsack [6, 6, 6, 6, 9, 9, 9, 9, 16, 16, 16, 16] 31).map
        List.length = some 4 ∧
      (greedy_knapsack [6, 6, 6, 6, 9, 9, 9, 9, 16, 16, 16, 16] 32).map
        List.length = some 5 := by
  decide

/-- One outer iteration packs the entire pool when every item is non-negative
and they all fit together. -/
theorem knapsackLoop_single (capacity : Int) (k : Nat) (numbers : List Int)
    (hne : numbers ≠ []) (hnn : ∀ x ∈ numbers, 0 ≤ x)
    (hsum : numbers.sum ≤ capacity) :
    knapsackLoop capacity (k + 1) numbers =
      some [(fillKnapsack numbers.length numbers capacity).1] := by
  rw [knapsackLoop]
  simp only [hne, if_false]
  rw [fillKnapsack_all numbers.length numbers capacity (le_refl _) hnn hsum]
  rw [knapsackLoop_nil]
  rfl

/-- C6 as amended.  Monotonicity in the capacity fails in general (see the
counterexample); it does survive at the top end: a capacity at least the
total size of a non-empty pool of non-negative items yields a single bin,
which is never more bins than any other terminating packing of the same
multiset produces. -/
theorem greedy_knapsack_bins_le_of_capacity_ge_sum (numbers : List Int) (c1 c2 : Int)
    (bins : List (List Int)) (hnn : ∀ x ∈ numbers, 0 ≤ x) (hne : numbers ≠ [])
    (hsum : numbers.sum ≤ c2) (h1 : greedy_knapsack numbers c1 = some bins) :
    ∃ bins2, greedy_knapsack numbers c2 = some bins2 ∧
      bins2.length ≤ bins.length := by
  have hne' := insertionSort_ne_nil numbers hne
  have hperm := List.perm_insertionSort (fun a b => a ≤ b) numbers
  have hnn' : ∀ x ∈ List.insertionSort (fun a b => a ≤ b) numbers, 0 ≤ x :=
    fun x hx => hnn x (hperm.subset hx)
  have hsum' : (List.insertionSort (fun a b => a ≤ b) numbers).sum ≤ c2 := by
    rw [hperm.sum_eq]; exact hsum
  have hlen : numbers.length = numbers.length - 1 + 1 := by
    have h0 : numbers.length ≠ 0 := fun h => hne (List.length_eq_zero.mp h)
    omega
  have hsingle := knapsackLoop_single c2 (numbers.length - 1)
    (List.insertionSort (fun a b => a ≤ b) numbers) hne' hnn' hsum'
  have hg2 : greedy_knapsack numbers c2 =
      some [(fillKnapsack (List.insertionSort (fun a b => a ≤ b) numbers).length
        (List.insertionSort (fun a b => a ≤ b) numbers) c2).1] := by
    unfold greedy_knapsack
    rw [hlen]
    exact hsingle
  refine ⟨_, hg2, ?_⟩
  have hbne : bins ≠ [] := by
    unfold greedy_knapsack at h1
    exact knapsackLoop_bins_ne_nil c1 numbers.length _ bins h1 hne'
  have hpos : 0 < bins.length := List.length_pos.mpr hbne
  simpa using hpos

/-- Witness for the amended C6 at `numbers = [2, 3]`, `c1 = 3`, `c2 = 5`. -/
theorem greedy_knapsack_bins_le_of_capacity_ge_sum_witness :
    ∃ bins2, greedy_knapsack [2, 3] 5 = some bins2 ∧
      bins2.length ≤ ([[3], [2]] : List (List Int)).length :=
  greedy_knapsack_bins_le_of_capacity_ge_sum [2, 3] 3 5 [[3], [2]] (by decide)
    (by decide) (by decide) (by decide)

/-- C8.  Determinism: the result of `greedy_knapsack` depends only on the
multiset of items (the sort collapses any two permutations of the input to
the same sorted list), so two calls on equal collections produce the same
bin count and, bin for bin, the same per-bin sums. -/
theorem greedy_knapsack_deterministic (xs ys : List Int) (capacity : Int)
    (h : xs.Perm ys) :
    (greedy_knapsack xs capacity).map List.length =
        (greedy_knapsack ys capacity).map List.length ∧
      (greedy_knapsack xs capacity).map (List.map List.sum) =
        (greedy_knapsack ys capacity).map (List.map List.sum) := by
  have hsort : List.insertionSort (fun a b => a ≤ b) xs =
      List.insertionSort (fun a b => a ≤ b) ys :=
    List.eq_of_perm_of_sorted
      ((List.perm_insertionSort (fun a b => a ≤ b) xs).trans
        (h.trans (List.perm_insertionSort (fun a b => a ≤ b) ys).symm))
      (List.sorted_insertionSort (fun a b => a ≤ b) xs)
      (List.sorted_insertionSort (fun a b => a ≤ b) ys)
  have hlen : xs.length = ys.length := h.length_eq
  unfold greedy_knapsack
  rw [hsort, hlen]
  exact ⟨rfl, rfl⟩

/-- Witness for C8 at the equal collections `[2, 1, 2]` and `[2, 2, 1]` with
capacity 3. -/
theorem greedy_knapsack_deterministic_witness :
    (greedy_knapsack [2, 1, 2] 3).map List.length =
        (greedy_knapsack [2, 2, 1] 3).map List.length ∧
      (greedy_knapsack [2, 1, 2] 3).map (List.map List.sum) =
        (greedy_knapsack [2, 2, 1] 3).map (List.map List.sum) :=
  greedy_knapsack_deterministic [2, 1, 2] [2, 2, 1] 3 (by decide)

/-- C9.  Token-type labelling: for `0 ≤ image_seq_length ≤ input_len` the
result has length exactly `input_len` and consists of `image_seq_length`
zeros followed by `input_len - image_seq_length` ones. -/
theorem get_paligemma_token_type_ids_spec (input_len image_seq_length : Int)
    (h0 : 0 ≤ image_seq_length) (h1 : image_seq_length ≤ input_len) :
    (get_paligemma_token_type_ids input_len image_seq_length).length =
        input_len.toNat ∧
      ∀ i : Nat, i < input_len.toNat →
        (get_paligemma_token_type_ids input_len image_seq_length).getD i 2 =
          if i < image_seq_length.toNat then 0 else 1 := by
  constructor
  · unfold get_paligemma_token_type_ids
    rw [List.length_append, List.length_replicate, List.length_replicate]
    omega
  · intro i hi
    unfold get_paligemma_token_type_ids
    by_cases hlt : i < image_seq_length.toNat
    · rw [List.getD_append _ _ _ _ (by rw [List.length_replicate]; exact hlt)]
      rw [List.getD_eq_getElem _ _ (by rw [List.length_replicate]; exact hlt)]
      simp [hlt]
    · rw [List.getD_append_right _ _ _ _ (by rw [List.length_replicate]; omega)]
      rw [List.length_replicate]
      rw [List.getD_eq_getElem _ _ (by rw [List.length_replicate]; omega)]
      simp [hlt]

/-- Witness for C9 at `input_len = 5`, `image_seq_length = 2`, sampling the
label at position 3. -/
theorem get_paligemma_token_type_ids_spec_witness :
    (get_paligemma_token_type_ids 5 2).length = (5 : Int).toNat ∧
      (get_paligemma_token_type_ids 5 2).getD 3 2 =
        if 3 < (2 : Int).toNat then 0 else 1 :=
  ⟨(get_paligemma_token_type_ids_spec 5 2 (by decide) (by decide)).1,
    (get_paligemma_token_type_ids_spec 5 2 (by decide) (by decide)).2 3 (by decide)⟩

end ProcessorUtils
